import Mathlib

/-!
Verification development for the `python-cs-events` repository.

The Python classes are shallowly embedded: a handler object is identified by
its object identity (`ref`, compared by the `is` operator) and its value
(`val`, compared by the `==` operator); an `Event`'s `__handlers` list is a
`List Handler`; mutating methods become functions from the list to the list.
Handler side effects during an invocation are modelled by an environment
mapping a handler's identity to the list of subscribe/unsubscribe operator
calls it performs on the event being raised.
-/

set_option autoImplicit false

namespace CsEvents

/-- A Python handler object: `ref` models object identity (the `is` operator),
`val` models value equality (the `==` operator). Distinct objects (`ref`)
may compare equal by value (`val`). -/
structure Handler where
  ref : Nat
  val : Nat
deriving DecidableEq, Repr

/-- Helper for the `__isub__` loops: removes the first element matching `p`
(the loops scan the list once and `break` after one `del`). -/
def removeFirst (p : Handler → Bool) : List Handler → List Handler
  | [] => []
  | x :: xs => if p x then xs else x :: removeFirst p xs

/-- Scanning `reversed(range(len(l)))` and deleting the first hit is removing
the last element matching `p`: embedded as reverse, remove first, reverse. -/
def removeLast (p : Handler → Bool) (l : List Handler) : List Handler :=
  (removeFirst p l.reverse).reverse

namespace Event

/-- `Event.__iadd__` (src/cs_events/_event.py): `self.__handlers.append(handler)`. -/
def iadd (handlers : List Handler) (h : Handler) : List Handler :=
  handlers ++ [h]

/-- `Event.__isub__` (src/cs_events/_event.py): scan `reversed(range(len))`,
delete the first entry with `self.__handlers[i] is handler`, then `break`;
identity comparison, so the match predicate is on `ref`. -/
def isub (handlers : List Handler) (h : Handler) : List Handler :=
  removeLast (fun x => x.ref == h.ref) handlers

end Event

namespace Delegate

/-- `Delegate.__iadd__` (src/events/_common.py): `self.__invocation_list.append(value)`. -/
def iadd (values : List Handler) (v : Handler) : List Handler :=
  values ++ [v]

/-- `Delegate.__isub__` (src/events/_common.py): scan `range(len - 1, -1, -1)`,
delete the first entry with `self.__invocation_list[i] == value`, then `break`;
note the comparison is `==` (value equality), not `is`. -/
def isub (values : List Handler) (v : Handler) : List Handler :=
  removeLast (fun x => x.val == v.val) values

end Delegate

/-- One `+=`/`-=` operator call that a handler performs on the event being
raised, while it is being invoked. -/
inductive Act
  | add (h : Handler)
  | remove (h : Handler)
deriving DecidableEq, Repr

/-- Effect of one operator call on the event's handler list
(`__iadd__` / `__isub__` of `Event`). -/
def applyAct (handlers : List Handler) : Act → List Handler
  | .add h => Event.iadd handlers h
  | .remove h => Event.isub handlers h

/-- Behaviour environment: the subscribe/unsubscribe operator calls a handler
(identified by its object identity) performs on the event each time it is
called. -/
abbrev Env := Nat → List Act

namespace Event

/-- The loop body of `Event.__call__`: iterate over the snapshot, calling each
handler with the (opaque) argument package `args`; a call applies the
handler's operator calls to the live handler list and is recorded in the
call log as `(identity, args)`. -/
def callLoop (env : Env) (args : Nat) :
    List Handler → List Handler → List Handler × List (Nat × Nat)
  | [], live => (live, [])
  | h :: rest, live =>
    let live2 := (env h.ref).foldl applyAct live
    let result := callLoop env args rest live2
    (result.1, (h.ref, args) :: result.2)

/-- `Event.__call__` (src/cs_events/_event.py): `for handler in [*self.__handlers]:
handler(*args, **kwargs)` — the list is snapshot-copied before iterating, then
each snapshot entry is called once; returns the final handler list and the
call log. -/
def call (env : Env) (args : Nat) (handlers : List Handler) :
    List Handler × List (Nat × Nat) :=
  callLoop env args handlers handlers

end Event

/-! ## Keyed event handler collections (src/cs_events/_collections.py) -/

/-- Keys of a keyed handler collection, compared with `==`. -/
abbrev Key := Nat

/-- A stored association of key to the handler list of the key's `Event`
container. `EventHandlerList.__getitem__` walks its linked entries from the
head; `EventHandlerDict.__getitem__` probes the dict; both return the first
entry whose key compares `==` to the request. -/
abbrev Assoc := List (Key × List Handler)

/-- First-match association lookup, the shared shape of both
`__getitem__` implementations and of `dict.get`. -/
def aget {κ β : Type} [BEq κ] (s : List (κ × β)) (k : κ) : Option β :=
  match s with
  | [] => none
  | (k2, e) :: rest => if k2 == k then some e else aget rest k

/-- Updates the first entry whose key matches, modelling an in-place mutation
of the container object that `__getitem__` would have returned. -/
def aupdate {κ β : Type} [BEq κ] (s : List (κ × β)) (k : κ) (f : β → β) :
    List (κ × β) :=
  match s with
  | [] => []
  | (k2, e) :: rest => if k2 == k then (k2, f e) :: rest else (k2, e) :: aupdate rest k f

/-- `d[k] = v` on a Python dict: replace the value of the existing entry in
place, or append a new entry in insertion order. -/
def aput {κ β : Type} [BEq κ] (s : List (κ × β)) (k : κ) (v : β) : List (κ × β) :=
  match s with
  | [] => [(k, v)]
  | (k2, e) :: rest => if k2 == k then (k2, v) :: rest else (k2, e) :: aput rest k v

/-- `del d[k]` on a Python dict: drop the entry. -/
def adel {κ β : Type} [BEq κ] (s : List (κ × β)) (k : κ) : List (κ × β) :=
  match s with
  | [] => []
  | (k2, e) :: rest => if k2 == k then rest else (k2, e) :: adel rest k

namespace EventHandlerList

/-- `EventHandlerList.__getitem__`: walk the linked entries from `__head`. -/
def getitem (s : Assoc) (k : Key) : Option (List Handler) :=
  aget s k

/-- `EventHandlerList.add_handler`: if `self[key]` exists, `e += value`,
else `self.__head = (key, Event(value), self.__head)` — prepend a container
seeded with the handler. -/
def add_handler (s : Assoc) (k : Key) (h : Handler) : Assoc :=
  if (getitem s k).isSome then aupdate s k (fun e => Event.iadd e h)
  else (k, [h]) :: s

end EventHandlerList

namespace EventHandlerDict

/-- `EventHandlerDict.__getitem__`: `self.__dict.get(key)`; a Python dict has
at most one entry per key, held in insertion order. -/
def getitem (s : Assoc) (k : Key) : Option (List Handler) :=
  aget s k

/-- `EventHandlerDict.add_handler`: if `self[key]` exists, `e += value`,
else `self.__dict[key] = Event(value)` — a new key is appended in insertion
order. -/
def add_handler (s : Assoc) (k : Key) (h : Handler) : Assoc :=
  if (getitem s k).isSome then aupdate s k (fun e => Event.iadd e h)
  else s ++ [(k, [h])]

end EventHandlerDict

/-- `EventHandlerCollection.remove_handler` (shared default implementation):
`if (e := self[key]) is not None: e -= value`; silent no-op on an absent
key. The container mutation is `Event.__isub__`. -/
def remove_handler (s : Assoc) (k : Key) (h : Handler) : Assoc :=
  if (aget s k).isSome then aupdate s k (fun e => Event.isub e h) else s

/-- `EventHandlerCollection.invoke` (shared default implementation):
`if (e := self[key]) is not None: e(*args, **kwargs)`; a no-op on an absent
key, otherwise `Event.__call__` with its snapshot semantics. Returns the
updated association and the call log. -/
def invokeKey (env : Env) (s : Assoc) (k : Key) (args : Nat) :
    Assoc × List (Nat × Nat) :=
  match aget s k with
  | none => (s, [])
  | some e =>
    let r := Event.call env args e
    (aupdate s k (fun _ => r.1), r.2)

/-! ## VolatileEvent (src/events/concurrent.py)

The event's `threading.Lock` is embedded as a `Bool`; acquiring a lock that
is already held by the running thread blocks forever (a `threading.Lock` is
not reentrant), which the embedding renders as `none`. Each method is the
sequence of primitive steps its source performs: acquire, mutate/copy,
release, and (for `__call__`) the handler calls after the release. -/

namespace VolatileEvent

/-- State of a `VolatileEvent`: its `_lock` and its `__handlers` list. -/
structure VState where
  lock : Bool
  handlers : List Handler
deriving DecidableEq, Repr

/-- `Lock.acquire()` on the running thread: deadlock (`none`) if the lock is
already held, since no other thread will release it while this one blocks. -/
def acquire (s : VState) : Option VState :=
  if s.lock then none else some { s with lock := true }

/-- `Lock.release()`. -/
def release (s : VState) : VState :=
  { s with lock := false }

/-- `VolatileEvent.__iadd__`: `self._lock.acquire()`;
`super().__iadd__(value)`; `self._lock.release()`. -/
def iadd (s : VState) (h : Handler) : Option VState :=
  (acquire s).map (fun s2 => release { s2 with handlers := Event.iadd s2.handlers h })

/-- `VolatileEvent.__isub__`: `self._lock.acquire()`;
`super().__isub__(value)`; `self._lock.release()`. -/
def isub (s : VState) (h : Handler) : Option VState :=
  (acquire s).map (fun s2 => release { s2 with handlers := Event.isub s2.handlers h })

/-- The operator calls a handler performs on the event during its own
invocation go through `__iadd__`/`__isub__`, lock and all. -/
def runActs (s : VState) : List Act → Option VState
  | [] => some s
  | a :: rest =>
    let r := match a with
      | .add h => iadd s h
      | .remove h => isub s h
    match r with
    | none => none
    | some s2 => runActs s2 rest

/-- The loop of `VolatileEvent.__call__` after the lock is released:
`for handler in handlers: handler(*args, **kwargs)` over the copy. -/
def callLoop (env : Env) (args : Nat) :
    List Handler → VState → Option (VState × List (Nat × Nat))
  | [], s => some (s, [])
  | h :: rest, s =>
    match runActs s (env h.ref) with
    | none => none
    | some s2 =>
      match callLoop env args rest s2 with
      | none => none
      | some r => some (r.1, (h.ref, args) :: r.2)

/-- `VolatileEvent.__call__`: `self._lock.acquire()`; `handlers = [*self]`;
`self._lock.release()`; then call every copied handler outside the lock. -/
def call (env : Env) (args : Nat) (s : VState) :
    Option (VState × List (Nat × Nat)) :=
  match acquire s with
  | none => none
  | some s2 =>
    let snapshot := s2.handlers
    callLoop env args snapshot (release s2)

end VolatileEvent

/-! ## Concurrent keyed collections: the first-subscribe race
(src/events/concurrent.py, `ConcurrentEventHandlerList.add_handler` and
`ConcurrentEventHandlerDict.add_handler`)

Two threads each run `add_handler(key, h)` on a fresh collection; a schedule
chooses which thread attempts its next step at each tick. The body between
`self.__lock.acquire()` and the matching `self.__lock.release()` — the check
of the key and, when absent, the creation of the seeded `VolatileEvent` — is
one atomic step, which is exactly what holding the lock guarantees: the other
thread's lock-protected section cannot interleave with it, and its only
lock-free action (the `e += value` append, which takes the event's own lock)
touches a previously created heap entry, not the one being created. -/

namespace Race

/-- A `VolatileEvent` on the heap: its `_lock` and its handler list. -/
structure HeapEvent where
  lock : Bool
  handlers : List Handler
deriving DecidableEq, Repr

/-- Shared state of the collection: the collection's `__lock`, the key-to-event
association (`__head` chain or `__dict`), the heap of allocated
`VolatileEvent` objects, and the allocation counter. -/
structure RState where
  lock : Bool
  entries : List (Key × Nat)
  heap : List (Nat × HeapEvent)
  fresh : Nat
deriving DecidableEq, Repr

/-- Program counter of a thread running `add_handler(key, h)`:
about to `acquire` the collection lock; inside the critical section;
about to `e += value` on the saved container; finished. -/
inductive TPc
  | acq
  | crit
  | app (oid : Nat)
  | fin
deriving DecidableEq, Repr

/-- How a new key-to-event entry is inserted: `ConcurrentEventHandlerList`
prepends `(key, VolatileEvent(value), self.__head)`,
`ConcurrentEventHandlerDict` does `self.__dict[key] = VolatileEvent(value)`. -/
abbrev Ins := List (Key × Nat) → Key → Nat → List (Key × Nat)

/-- `ConcurrentEventHandlerList`: prepend to `__head`. -/
def insList : Ins := fun e k n => (k, n) :: e

/-- `ConcurrentEventHandlerDict`: insert a new dict entry. -/
def insDict : Ins := fun e k n => e ++ [(k, n)]

/-- One step of a thread running `add_handler (k, h)`. A blocked acquire
leaves everything unchanged (the thread just waits). -/
def thStep (ins : Ins) (k : Key) (h : Handler) (c : RState) (pc : TPc) :
    RState × TPc :=
  match pc with
  | .acq =>
    if c.lock then (c, .acq) else ({ c with lock := true }, .crit)
  | .crit =>
    match aget c.entries k with
    | none =>
      ({ c with
          entries := ins c.entries k c.fresh,
          heap := c.heap ++ [(c.fresh, ⟨false, [h]⟩)],
          fresh := c.fresh + 1,
          lock := false }, .fin)
    | some oid => ({ c with lock := false }, .app oid)
  | .app oid =>
    match aget c.heap oid with
    | some he =>
      if he.lock then (c, .app oid)
      else ({ c with
          heap := aupdate c.heap oid
            (fun e => ⟨false, Event.iadd e.handlers h⟩) }, .fin)
    | none => (c, .app oid)
  | .fin => (c, .fin)

/-- The whole system: shared state plus the two threads. -/
structure RaceCfg where
  st : RState
  pc1 : TPc
  pc2 : TPc
deriving DecidableEq, Repr

/-- One scheduler tick: `true` lets thread 1 (adding `h1`) attempt a step,
`false` thread 2 (adding `h2`). -/
def raceStep (ins : Ins) (k : Key) (h1 h2 : Handler) (c : RaceCfg) (w : Bool) :
    RaceCfg :=
  if w then
    let r := thStep ins k h1 c.st c.pc1
    ⟨r.1, r.2, c.pc2⟩
  else
    let r := thStep ins k h2 c.st c.pc2
    ⟨r.1, c.pc1, r.2⟩

/-- Runs a schedule. -/
def raceRun (ins : Ins) (k : Key) (h1 h2 : Handler) (c : RaceCfg) :
    List Bool → RaceCfg
  | [] => c
  | w :: ws => raceRun ins k h1 h2 (raceStep ins k h1 h2 c w) ws

/-- Both threads start before their `acquire`, on a fresh collection. -/
def raceInit : RaceCfg :=
  ⟨⟨false, [], [], 0⟩, .acq, .acq⟩

/-- The claimed outcome: exactly one entry for the key, whose container holds
both handlers (in either order), no duplicate container, all locks released. -/
def goodFinal (k : Key) (h1 h2 : Handler) (c : RaceCfg) : Prop :=
  c.st.lock = false ∧ c.st.entries = [(k, 0)] ∧ c.st.fresh = 1 ∧
  (c.st.heap = [(0, ⟨false, [h1, h2]⟩)] ∨ c.st.heap = [(0, ⟨false, [h2, h1]⟩)])

/-- Both threads have completed their `add_handler` call. -/
def bothFin (c : RaceCfg) : Prop :=
  c.pc1 = .fin ∧ c.pc2 = .fin

/-- The collection state after the first subscriber created the container. -/
def created (k : Key) (h : Handler) : RState :=
  ⟨false, [(k, 0)], [(0, ⟨false, [h]⟩)], 1⟩

/-- Reachable configurations of the two-adder race: nobody has entered yet;
one thread holds the lock before an empty check; the creator is done and the
other thread is before, inside, or past its critical section; or both are
done. -/
def Inv (k : Key) (h1 h2 : Handler) (c : RaceCfg) : Prop :=
  c = raceInit ∨
  c = ⟨⟨true, [], [], 0⟩, .crit, .acq⟩ ∨
  c = ⟨⟨true, [], [], 0⟩, .acq, .crit⟩ ∨
  c = ⟨created k h1, .fin, .acq⟩ ∨
  c = ⟨created k h2, .acq, .fin⟩ ∨
  c = ⟨{ created k h1 with lock := true }, .fin, .crit⟩ ∨
  c = ⟨{ created k h2 with lock := true }, .crit, .fin⟩ ∨
  c = ⟨created k h1, .fin, .app 0⟩ ∨
  c = ⟨created k h2, .app 0, .fin⟩ ∨
  c = ⟨⟨false, [(k, 0)], [(0, ⟨false, [h1, h2]⟩)], 1⟩, .fin, .fin⟩ ∨
  c = ⟨⟨false, [(k, 0)], [(0, ⟨false, [h2, h1]⟩)], 1⟩, .fin, .fin⟩

end Race

/-! ## Property-backed event storage

Shared by `EventDispatcher` (src/cs_events/_events.py) and the
`@events(properties=True)` adaptor `_create_events`
(src/src/cs_events/_events.py). Containers live on a heap so that Python's
in-place mutation and object identity are visible: an event property's value
is either the module-level `_empty_event` sentinel or a reference to an
allocated `Event`; two references are the same object exactly when they are
the same constructor application. -/

/-- The value of an event property read: the shared `_EmptyEvent` sentinel or
a reference to a real allocated `Event`. -/
inductive ERef
  | sentinel
  | real (oid : Nat)
deriving DecidableEq, Repr

/-- An instance's property storage: the heap of allocated `Event` objects and
the `__events` dict mapping a storage key to the stored container. -/
structure PState where
  heap : List (Nat × List Handler)
  events : List (String × ERef)
  fresh : Nat
deriving DecidableEq, Repr

/-- A fresh instance: `self.__events = {}` and nothing allocated. -/
def pinit : PState := ⟨[], [], 0⟩

/-- `len(x)` on a property read: `_EmptyEvent.__len__` is 0, `Event.__len__`
is the length of the referenced handler list. -/
def lenOf (s : PState) : ERef → Nat
  | .sentinel => 0
  | .real oid => ((aget s.heap oid).getD []).length

/-- The `+=` operator on a property read: `_EmptyEvent.__iadd__` returns
`Event(handler)` — a newly allocated container seeded with the handler —
while `Event.__iadd__` appends in place and returns the same object. -/
def iaddRef (s : PState) (r : ERef) (h : Handler) : PState × ERef :=
  match r with
  | .sentinel =>
    ({ s with heap := s.heap ++ [(s.fresh, [h])], fresh := s.fresh + 1 },
      .real s.fresh)
  | .real oid =>
    ({ s with heap := aupdate s.heap oid (fun l => Event.iadd l h) }, .real oid)

/-- The `-=` operator on a property read: `_EmptyEvent.__isub__` returns the
sentinel itself; `Event.__isub__` removes in place and returns the same
object. -/
def isubRef (s : PState) (r : ERef) (h : Handler) : PState × ERef :=
  match r with
  | .sentinel => (s, .sentinel)
  | .real oid =>
    ({ s with heap := aupdate s.heap oid (fun l => Event.isub l h) }, .real oid)

namespace EventDispatcher

/-- `fget` for a plain `Event` annotation (`is_subclass` false):
`self.__events.get(name, _empty_event)`. -/
def fget (s : PState) (name : String) : ERef :=
  (aget s.events name).getD .sentinel

/-- `fget` for an annotation that is a strict subclass of `Event`
(`is_subclass` true): materialize and store `T()` on first read. -/
def fgetSub (s : PState) (name : String) : PState × ERef :=
  match aget s.events name with
  | some r => (s, r)
  | none =>
    ({ s with
        heap := s.heap ++ [(s.fresh, [])],
        events := aput s.events name (.real s.fresh),
        fresh := s.fresh + 1 }, .real s.fresh)

/-- `fset` with `del_empty_event=False` (the default):
`self.__events[name] = value`. -/
def fset (s : PState) (name : String) (r : ERef) : PState :=
  { s with events := aput s.events name r }

/-- `fset` with `del_empty_event=True`: `if len(value): self.__events[name] =
value; elif name in self.__events: del self.__events[name]`. -/
def fsetDel (s : PState) (name : String) (r : ERef) : PState :=
  if lenOf s r ≠ 0 then { s with events := aput s.events name r }
  else if (aget s.events name).isSome then { s with events := adel s.events name }
  else s

/-- `fdel`: `if name in self.__events: del self.__events[name]`. -/
def fdel (s : PState) (name : String) : PState :=
  if (aget s.events name).isSome then { s with events := adel s.events name } else s

/-- `obj.name += h` on a property: read through `fget`, apply `__iadd__`,
write the result back through `fset` (default configuration). -/
def subscribe (s : PState) (name : String) (h : Handler) : PState :=
  let p := iaddRef s (fget s name) h
  fset p.1 name p.2

/-- `obj.name -= h` on a property (default configuration). -/
def unsubscribe (s : PState) (name : String) (h : Handler) : PState :=
  let p := isubRef s (fget s name) h
  fset p.1 name p.2

/-- `obj.name += h` when the class was declared with `del_empty_event=True`. -/
def subscribeDel (s : PState) (name : String) (h : Handler) : PState :=
  let p := iaddRef s (fget s name) h
  fsetDel p.1 name p.2

/-- `obj.name -= h` when the class was declared with `del_empty_event=True`. -/
def unsubscribeDel (s : PState) (name : String) (h : Handler) : PState :=
  let p := isubRef s (fget s name) h
  fsetDel p.1 name p.2

end EventDispatcher

namespace CreateEvents

/-- The storage key `_create_events` actually uses
(src/src/cs_events/_events.py): `create_event(name[len(prefix)])` passes the
single character of the property name at index `len(prefix)`. -/
def eventKey (pfx : String) (name : String) : String :=
  String.mk ((name.toList.drop pfx.length).take 1)

/-- `fget`: `self._events.get(name, _empty_event)` with the key above. -/
def fget (pfx : String) (s : PState) (name : String) : ERef :=
  (aget s.events (eventKey pfx name)).getD .sentinel

/-- `fset`: `if self._events.setdefault(name, value) is not value: raise
AttributeError(...)` — stores only when the key is absent; raises when a
different container is already stored. -/
def fset (pfx : String) (s : PState) (name : String) (r : ERef) :
    Except String PState :=
  match aget s.events (eventKey pfx name) with
  | none => .ok { s with events := aput s.events (eventKey pfx name) r }
  | some existing => if existing = r then .ok s else .error "AttributeError"

/-- `fdel`: `if name in self._events: del self._events[name]`. -/
def fdel (pfx : String) (s : PState) (name : String) : PState :=
  if (aget s.events (eventKey pfx name)).isSome then
    { s with events := adel s.events (eventKey pfx name) }
  else s

/-- `obj.name += h` on an `@events(properties=True)` property. -/
def subscribe (pfx : String) (s : PState) (name : String) (h : Handler) :
    Except String PState :=
  let p := iaddRef s (fget pfx s name) h
  fset pfx p.1 name p.2

/-- `obj.name -= h` on an `@events(properties=True)` property. -/
def unsubscribe (pfx : String) (s : PState) (name : String) (h : Handler) :
    Except String PState :=
  let p := isubRef s (fget pfx s name) h
  fset pfx p.1 name p.2

end CreateEvents

/-! ## Asynchronous event fan-out -/

/-- Events of an asynchronous invocation trace: a task settling (with or
without a failure), and the aggregate invocation surfacing a failure. -/
inductive TraceEv
  | settled (ref : Nat) (failed : Bool)
  | raised (ref : Nat)
deriving DecidableEq, Repr

/-- The task that settled, if this trace event is a settlement. -/
def settleRef : TraceEv → Option Nat
  | .settled r _ => some r
  | .raised _ => none

namespace AsyncEvent

/-- Modelled from the spec: the `AsyncEvent` container class lives in the
module `events._field`, which `events/__init__.py` and `events/_utils.py`
refer to but which is absent from the repository snapshot; only its callers
and tests are present. Per spec §4.2/§7, `invoke` snapshots the handler list,
schedules every handler as an independent concurrent task launched in
subscription order, lets every task settle (siblings are not cancelled on a
failure), and only then, if one or more tasks failed, surfaces the first
recorded failure. The cooperative scheduler guarantees no completion order,
so the settle order is an arbitrary permutation `settleSeq` of the snapshot;
`env` tells whether a handler's task fails. -/
def trace (env : Nat → Bool) (settleSeq : List Handler) : List TraceEv :=
  let settles := settleSeq.map (fun h => TraceEv.settled h.ref (env h.ref))
  match settleSeq.filter (fun h => env h.ref) with
  | [] => settles
  | f :: _ => settles ++ [TraceEv.raised f.ref]

/-- Modelled from the spec: the tasks are launched in subscription order, one
per currently registered handler. -/
def launches (handlers : List Handler) : List Nat :=
  handlers.map (fun h => h.ref)

end AsyncEvent

/-- One external operation on a keyed collection. -/
inductive Op
  | lookup (k : Key)
  | add_handler (k : Key) (h : Handler)
  | remove_handler (k : Key) (h : Handler)
  | invoke (k : Key) (args : Nat)
deriving DecidableEq, Repr

/-- The observable result of one operation: the contents of the container a
lookup returns (or its absence), or the call log of an invocation. -/
inductive Out
  | got (r : Option (List Handler))
  | done
  | log (l : List (Nat × Nat))
deriving DecidableEq, Repr

/-- One step of `EventHandlerList`. -/
def stepL (env : Env) (s : Assoc) : Op → Assoc × Out
  | .lookup k => (s, .got (EventHandlerList.getitem s k))
  | .add_handler k h => (EventHandlerList.add_handler s k h, .done)
  | .remove_handler k h => (remove_handler s k h, .done)
  | .invoke k args =>
    let r := invokeKey env s k args
    (r.1, .log r.2)

/-- One step of `EventHandlerDict`. -/
def stepD (env : Env) (s : Assoc) : Op → Assoc × Out
  | .lookup k => (s, .got (EventHandlerDict.getitem s k))
  | .add_handler k h => (EventHandlerDict.add_handler s k h, .done)
  | .remove_handler k h => (remove_handler s k h, .done)
  | .invoke k args =>
    let r := invokeKey env s k args
    (r.1, .log r.2)

/-- Runs a sequence of operations on `EventHandlerList`, collecting outputs. -/
def runL (env : Env) (s : Assoc) : List Op → Assoc × List Out
  | [] => (s, [])
  | op :: ops =>
    let r := stepL env s op
    let rest := runL env r.1 ops
    (rest.1, r.2 :: rest.2)

/-- Runs a sequence of operations on `EventHandlerDict`, collecting outputs. -/
def runD (env : Env) (s : Assoc) : List Op → Assoc × List Out
  | [] => (s, [])
  | op :: ops =>
    let r := stepD env s op
    let rest := runD env r.1 ops
    (rest.1, r.2 :: rest.2)

/-! ## Theorems -/

theorem callLoop_log (env : Env) (args : Nat) (snap : List Handler) :
    ∀ live, (Event.callLoop env args snap live).2
      = snap.map (fun h => (h.ref, args)) := by
  induction snap with
  | nil => intro live; rfl
  | cons h rest ih => intro live; simp [Event.callLoop, ih]

/-- C1: raising an `Event` calls exactly the handlers registered at the moment
the call began, in subscription order, each exactly once, each with the same
argument package; the call log does not depend on the subscribe/unsubscribe
operations the handlers perform on the event during the invocation (those
only alter the list used by future invocations). -/
theorem event_call_snapshot (env env2 : Env) (args : Nat)
    (handlers : List Handler) :
    (Event.call env args handlers).2 = handlers.map (fun h => (h.ref, args)) ∧
    (Event.call env args handlers).2 = (Event.call env2 args handlers).2 := by
  refine ⟨callLoop_log env args handlers handlers, ?_⟩
  rw [Event.call, Event.call, callLoop_log, callLoop_log]

theorem removeFirst_of_all_not (p : Handler → Bool) (l : List Handler)
    (hl : ∀ x ∈ l, p x = false) : removeFirst p l = l := by
  induction l with
  | nil => rfl
  | cons a t ih =>
    have ha := hl a (List.mem_cons_self a t)
    simp [removeFirst, ha, ih fun x hx => hl x (List.mem_cons_of_mem a hx)]

theorem removeFirst_decomp (p : Handler → Bool) (l : List Handler)
    (hl : ∃ x ∈ l, p x = true) :
    ∃ l1 x l2, l = l1 ++ x :: l2 ∧ (∀ y ∈ l1, p y = false) ∧ p x = true ∧
      removeFirst p l = l1 ++ l2 := by
  induction l with
  | nil => simp at hl
  | cons a t ih =>
    by_cases ha : p a = true
    · exact ⟨[], a, t, rfl, by simp, ha, by simp [removeFirst, ha]⟩
    · have ha2 : p a = false := by simpa using ha
      obtain ⟨x, hx, hpx⟩ := hl
      rcases List.mem_cons.mp hx with rfl | hx2
      · exact absurd hpx ha
      · obtain ⟨l1, x2, l2, he, h1, h2, h3⟩ := ih ⟨x, hx2, hpx⟩
        refine ⟨a :: l1, x2, l2, by simp [he], ?_, h2, ?_⟩
        · intro y hy
          rcases List.mem_cons.mp hy with rfl | hy2
          · exact ha2
          · exact h1 y hy2
        · simp [removeFirst, ha2, h3]

theorem removeLast_of_all_not (p : Handler → Bool) (l : List Handler)
    (hl : ∀ x ∈ l, p x = false) : removeLast p l = l := by
  rw [removeLast, removeFirst_of_all_not, List.reverse_reverse]
  intro x hx
  exact hl x (List.mem_reverse.mp hx)

theorem removeLast_decomp (p : Handler → Bool) (l : List Handler)
    (hl : ∃ x ∈ l, p x = true) :
    ∃ l1 x l2, l = l1 ++ x :: l2 ∧ p x = true ∧ (∀ y ∈ l2, p y = false) ∧
      removeLast p l = l1 ++ l2 := by
  obtain ⟨m1, x, m2, he, h1, h2, h3⟩ := removeFirst_decomp p l.reverse
    (by obtain ⟨x, hx, hpx⟩ := hl; exact ⟨x, List.mem_reverse.mpr hx, hpx⟩)
  refine ⟨m2.reverse, x, m1.reverse, ?_, h2, ?_, ?_⟩
  · rw [← List.reverse_reverse l, he]
    simp
  · intro y hy
    exact h1 y (List.mem_reverse.mp hy)
  · rw [removeLast, h3]
    simp

/-- C2 counterexample: for the `Delegate` container of `events/_common.py`,
`container -= h` is not matched by identity: with the single stored handler
being a distinct object (`ref` 0) that compares `==`-equal (`val` 5) to the
argument (`ref` 1), no identical entry exists, yet the call removes the
stored entry instead of being a no-op. -/
theorem delegate_isub_matches_by_equality :
    Delegate.isub [⟨0, 5⟩] ⟨1, 5⟩ = [] ∧
    ∀ x ∈ ([⟨0, 5⟩] : List Handler), x.ref ≠ (⟨1, 5⟩ : Handler).ref := by
  decide

/-- C2 amended: `Event.__isub__` (both `cs_events` and `events` packages)
scans from the end and removes exactly the last entry that is identical
(reference-equal) to the argument, and is a silent no-op when no identical
entry exists; `Delegate.__isub__` (events/_common.py) has the same
last-occurrence/no-op shape but matches by `==` (value equality), not by
identity. -/
theorem isub_removes_last_occurrence (l : List Handler) (h : Handler) :
    ((∀ x ∈ l, x.ref ≠ h.ref) → Event.isub l h = l) ∧
    ((∃ x ∈ l, x.ref = h.ref) →
      ∃ l1 x l2, l = l1 ++ x :: l2 ∧ x.ref = h.ref ∧
        (∀ y ∈ l2, y.ref ≠ h.ref) ∧ Event.isub l h = l1 ++ l2) ∧
    ((∀ x ∈ l, x.val ≠ h.val) → Delegate.isub l h = l) ∧
    ((∃ x ∈ l, x.val = h.val) →
      ∃ l1 x l2, l = l1 ++ x :: l2 ∧ x.val = h.val ∧
        (∀ y ∈ l2, y.val ≠ h.val) ∧ Delegate.isub l h = l1 ++ l2) := by
  refine ⟨?_, ?_, ?_, ?_⟩
  · intro hn
    exact removeLast_of_all_not _ l fun x hx => by
      simpa using hn x hx
  · intro hs
    obtain ⟨l1, x, l2, he, hp, hrest, hr⟩ := removeLast_decomp
      (fun x => x.ref == h.ref) l
      (by obtain ⟨x, hx, hpx⟩ := hs; exact ⟨x, hx, by simpa using hpx⟩)
    exact ⟨l1, x, l2, he, by simpa using hp,
      fun y hy => by simpa using hrest y hy, hr⟩
  · intro hn
    exact removeLast_of_all_not _ l fun x hx => by
      simpa using hn x hx
  · intro hs
    obtain ⟨l1, x, l2, he, hp, hrest, hr⟩ := removeLast_decomp
      (fun x => x.val == h.val) l
      (by obtain ⟨x, hx, hpx⟩ := hs; exact ⟨x, hx, by simpa using hpx⟩)
    exact ⟨l1, x, l2, he, by simpa using hp,
      fun y hy => by simpa using hrest y hy, hr⟩

/-- C2 witness: the no-identical-entry branch of the amended theorem at a
concrete input — value-equal but not identical, so `Event.__isub__` (identity
match) leaves the list unchanged. -/
theorem isub_removes_last_occurrence_witness :
    (∀ x ∈ ([⟨0, 5⟩] : List Handler), x.ref ≠ (⟨1, 5⟩ : Handler).ref) ∧
    Event.isub [⟨0, 5⟩] ⟨1, 5⟩ = [⟨0, 5⟩] :=
  ⟨by decide, (isub_removes_last_occurrence [⟨0, 5⟩] ⟨1, 5⟩).1 (by decide)⟩

section AssocLemmas

variable {β : Type}

theorem aget_eq_none_iff (s : List (Key × β)) (k : Key) :
    aget s k = none ↔ k ∉ s.map Prod.fst := by
  induction s with
  | nil => simp [aget]
  | cons kv rest ih =>
    obtain ⟨k2, e⟩ := kv
    by_cases hk : k2 = k
    · subst hk
      simp [aget]
    · simp [aget, beq_iff_eq, hk, ih, Ne.symm hk]

theorem aget_isSome_iff (s : List (Key × β)) (k : Key) :
    (aget s k).isSome ↔ k ∈ s.map Prod.fst := by
  rw [Option.isSome_iff_ne_none, ne_eq, aget_eq_none_iff, not_not]

theorem aget_append (l1 l2 : List (Key × β)) (k : Key) :
    aget (l1 ++ l2) k
      = if (aget l1 k).isSome then aget l1 k else aget l2 k := by
  induction l1 with
  | nil => simp [aget]
  | cons kv rest ih =>
    obtain ⟨k2, e⟩ := kv
    by_cases hk : k2 = k
    · subst hk
      simp [aget]
    · simp [aget, beq_iff_eq, hk, ih]

theorem aget_reverse_isSome (s : List (Key × β)) (k : Key) :
    (aget s.reverse k).isSome = (aget s k).isSome := by
  rw [Bool.eq_iff_iff, aget_isSome_iff, aget_isSome_iff, List.map_reverse,
    List.mem_reverse]

theorem aget_reverse (s : List (Key × β)) (k : Key)
    (hnd : (s.map Prod.fst).Nodup) : aget s.reverse k = aget s k := by
  induction s with
  | nil => rfl
  | cons kv rest ih =>
    obtain ⟨k2, e⟩ := kv
    simp only [List.map_cons, List.nodup_cons] at hnd
    rw [List.reverse_cons, aget_append]
    by_cases hk : k2 = k
    · subst hk
      have hr : aget rest k2 = none := (aget_eq_none_iff rest k2).mpr hnd.1
      have hr2 : (aget rest.reverse k2).isSome = false := by
        rw [aget_reverse_isSome, hr]
        rfl
      simp [hr2, aget]
    · rw [ih hnd.2]
      cases hs : aget rest k with
      | none => simp [aget, beq_iff_eq, hk, hs]
      | some v => simp [aget, beq_iff_eq, hk, hs]

theorem keys_aupdate (s : List (Key × β)) (k : Key) (f : β → β) :
    (aupdate s k f).map Prod.fst = s.map Prod.fst := by
  induction s with
  | nil => rfl
  | cons kv rest ih =>
    obtain ⟨k2, e⟩ := kv
    by_cases hk : k2 = k
    · subst hk
      simp [aupdate]
    · simp [aupdate, beq_iff_eq, hk, ih]

theorem aupdate_of_none (s : List (Key × β)) (k : Key) (f : β → β)
    (h : aget s k = none) : aupdate s k f = s := by
  induction s with
  | nil => rfl
  | cons kv rest ih =>
    obtain ⟨k2, e⟩ := kv
    by_cases hk : k2 = k
    · subst hk
      simp [aget] at h
    · simp only [aget, beq_iff_eq, hk] at h
      simp [aupdate, beq_iff_eq, hk, ih (by simpa using h)]

theorem aupdate_append (l1 l2 : List (Key × β)) (k : Key) (f : β → β) :
    aupdate (l1 ++ l2) k f
      = if (aget l1 k).isSome then aupdate l1 k f ++ l2
        else l1 ++ aupdate l2 k f := by
  induction l1 with
  | nil => simp [aget, aupdate]
  | cons kv rest ih =>
    obtain ⟨k2, e⟩ := kv
    by_cases hk : k2 = k
    · subst hk
      simp [aget, aupdate]
    · cases hs : aget rest k with
      | none => simp [aget, aupdate, beq_iff_eq, hk, ih, hs]
      | some v => simp [aget, aupdate, beq_iff_eq, hk, ih, hs]

theorem aupdate_reverse (s : List (Key × β)) (k : Key) (f : β → β)
    (hnd : (s.map Prod.fst).Nodup) :
    aupdate s.reverse k f = (aupdate s k f).reverse := by
  induction s with
  | nil => rfl
  | cons kv rest ih =>
    obtain ⟨k2, e⟩ := kv
    simp only [List.map_cons, List.nodup_cons] at hnd
    rw [List.reverse_cons, aupdate_append]
    by_cases hk : k2 = k
    · subst hk
      have hr : aget rest k2 = none := (aget_eq_none_iff rest k2).mpr hnd.1
      have hr2 : (aget rest.reverse k2).isSome = false := by
        rw [aget_reverse_isSome, hr]
        rfl
      simp [hr2, aupdate]
    · rw [ih hnd.2]
      cases hs : aget rest k with
      | none =>
        have : (aget rest.reverse k).isSome = false := by
          rw [aget_reverse_isSome, hs]
          rfl
        simp [this, aupdate, beq_iff_eq, hk, aupdate_of_none rest k f hs]
      | some v =>
        have : (aget rest.reverse k).isSome = true := by
          rw [aget_reverse_isSome, hs]
          rfl
        simp [this, aupdate, beq_iff_eq, hk]

theorem aget_aupdate_isSome (s : List (Key × β)) (k k2 : Key) (f : β → β) :
    (aget (aupdate s k f) k2).isSome = (aget s k2).isSome := by
  rw [Bool.eq_iff_iff, aget_isSome_iff, aget_isSome_iff, keys_aupdate]

end AssocLemmas

/-- The simulation relation between the two backings: the linked list holds
exactly the dict's entries most-recent-first, and keys are unique. -/
def EquivInv (sL sD : Assoc) : Prop :=
  sL = sD.reverse ∧ (sD.map Prod.fst).Nodup

theorem stepLD (env : Env) (op : Op) (sL sD : Assoc) (h : EquivInv sL sD) :
    EquivInv (stepL env sL op).1 (stepD env sD op).1 ∧
      (stepL env sL op).2 = (stepD env sD op).2 := by
  obtain ⟨hrev, hnd⟩ := h
  subst hrev
  cases op with
  | lookup k =>
    exact ⟨⟨rfl, hnd⟩, by
      simp [stepL, stepD, EventHandlerList.getitem, EventHandlerDict.getitem,
        aget_reverse _ _ hnd]⟩
  | add_handler k h =>
    by_cases hk : (aget sD k).isSome
    · have hrk : (aget sD.reverse k).isSome := by rwa [aget_reverse_isSome]
      refine ⟨⟨?_, ?_⟩, rfl⟩
      · simp only [stepL, stepD, EventHandlerList.add_handler,
          EventHandlerDict.add_handler, EventHandlerList.getitem,
          EventHandlerDict.getitem, hk, hrk, if_pos]
        exact aupdate_reverse sD k _ hnd
      · simpa [stepD, EventHandlerDict.add_handler, EventHandlerDict.getitem,
          hk, keys_aupdate] using hnd
    · have hrk : ¬(aget sD.reverse k).isSome := by rwa [aget_reverse_isSome]
      have hmem : k ∉ sD.map Prod.fst := by
        rw [← aget_eq_none_iff, ← Option.not_isSome_iff_eq_none]
        simpa using hk
      refine ⟨⟨?_, ?_⟩, rfl⟩
      · simp [stepL, stepD, EventHandlerList.add_handler,
          EventHandlerDict.add_handler, EventHandlerList.getitem,
          EventHandlerDict.getitem, hk, hrk]
      · simp [stepD, EventHandlerDict.add_handler, EventHandlerDict.getitem,
          hk, List.nodup_append, hnd, hmem]
  | remove_handler k h =>
    by_cases hk : (aget sD k).isSome
    · have hrk : (aget sD.reverse k).isSome := by rwa [aget_reverse_isSome]
      refine ⟨⟨?_, ?_⟩, rfl⟩
      · simp only [stepL, stepD, remove_handler, hk, hrk, if_pos]
        exact aupdate_reverse sD k _ hnd
      · simpa [stepD, remove_handler, hk, keys_aupdate] using hnd
    · have hrk : ¬(aget sD.reverse k).isSome := by rwa [aget_reverse_isSome]
      exact ⟨⟨by simp [stepL, stepD, remove_handler, hk, hrk], by
        simpa [stepD, remove_handler, hk] using hnd⟩, rfl⟩
  | invoke k args =>
    have hget : aget sD.reverse k = aget sD k := aget_reverse _ _ hnd
    cases hk : aget sD k with
    | none =>
      refine ⟨⟨by simp [stepL, stepD, invokeKey, hget, hk], by
        simpa [stepD, invokeKey, hk] using hnd⟩, ?_⟩
      simp [stepL, stepD, invokeKey, hget, hk]
    | some e =>
      refine ⟨⟨?_, ?_⟩, ?_⟩
      · simp only [stepL, stepD, invokeKey, hget, hk]
        exact aupdate_reverse sD k _ hnd
      · simpa [stepD, invokeKey, hk, keys_aupdate] using hnd
      · simp [stepL, stepD, invokeKey, hget, hk]

theorem runLD (env : Env) (ops : List Op) :
    ∀ sL sD, EquivInv sL sD →
      EquivInv (runL env sL ops).1 (runD env sD ops).1 ∧
        (runL env sL ops).2 = (runD env sD ops).2 := by
  induction ops with
  | nil => exact fun _ _ h => ⟨h, rfl⟩
  | cons op ops ih =>
    intro sL sD h
    obtain ⟨h1, h2⟩ := stepLD env op sL sD h
    obtain ⟨h3, h4⟩ := ih _ _ h1
    exact ⟨h3, by simp [runL, runD, h2, h4]⟩

/-- C3: for every finite sequence of `lookup`, `add_handler`,
`remove_handler`, and `invoke` operations over any keys and handlers (with
arbitrary handler behaviour during invocations), the linked-list backing
`EventHandlerList` and the dict backing `EventHandlerDict`, each started
empty, produce identical per-operation results, and afterwards every key
resolves to an identical observable container state. -/
theorem list_dict_equivalence (env : Env) (ops : List Op) :
    (runL env [] ops).2 = (runD env [] ops).2 ∧
    ∀ k, EventHandlerList.getitem (runL env [] ops).1 k
        = EventHandlerDict.getitem (runD env [] ops).1 k := by
  obtain ⟨⟨hrev, hnd⟩, houts⟩ := runLD env ops [] [] ⟨rfl, List.nodup_nil⟩
  refine ⟨houts, fun k => ?_⟩
  rw [EventHandlerList.getitem, EventHandlerDict.getitem, hrev,
    aget_reverse _ _ hnd]

theorem isub_singleton_self (h : Handler) : Event.isub [h] h = [] := by
  simp [Event.isub, removeLast, removeFirst]

/-- C7: in both keyed backings, at most one container per key ever exists
(the key lists of every state reachable from empty are duplicate-free); the
first `add_handler` for an absent key creates the container seeded with
exactly that handler; `remove_handler` never removes a container — it
preserves, for every key, whether a container exists — so removing the last
handler leaves an empty container in place and a later lookup returns it
rather than the absent marker. -/
theorem keyed_collection_container_invariant (env : Env) (ops : List Op)
    (s : Assoc) (k k2 : Key) (h : Handler) :
    ((runL env [] ops).1.map Prod.fst).Nodup ∧
    ((runD env [] ops).1.map Prod.fst).Nodup ∧
    (aget s k = none →
      EventHandlerList.getitem (EventHandlerList.add_handler s k h) k
          = some [h] ∧
      EventHandlerDict.getitem (EventHandlerDict.add_handler s k h) k
          = some [h]) ∧
    (aget (remove_handler s k h) k2).isSome = (aget s k2).isSome ∧
    (aget s k = none →
      aget (remove_handler (EventHandlerList.add_handler s k h) k h) k
          = some [] ∧
      aget (remove_handler (EventHandlerDict.add_handler s k h) k h) k
          = some []) := by
  obtain ⟨⟨hrev, hnd⟩, _⟩ := runLD env ops [] [] ⟨rfl, List.nodup_nil⟩
  refine ⟨?_, hnd, ?_, ?_, ?_⟩
  · rw [hrev, List.map_reverse]
    exact List.nodup_reverse.mpr hnd
  · intro hnone
    have hns : ¬(aget s k).isSome := by simp [hnone]
    constructor
    · simp [EventHandlerList.add_handler, EventHandlerList.getitem, hns, aget]
    · simp [EventHandlerDict.add_handler, EventHandlerDict.getitem, hns,
        aget_append, hnone, aget]
  · rw [remove_handler]
    by_cases hk : (aget s k).isSome
    · simp [hk, aget_aupdate_isSome]
    · simp [hk]
  · intro hnone
    have hns : ¬(aget s k).isSome := by simp [hnone]
    constructor
    · have hadd : EventHandlerList.add_handler s k h = (k, [h]) :: s := by
        simp [EventHandlerList.add_handler, EventHandlerList.getitem, hns]
      rw [hadd, remove_handler]
      have hg : aget ((k, [h]) :: s) k = some [h] := by simp [aget]
      simp [hg, aupdate, aget, isub_singleton_self]
    · have hadd : EventHandlerDict.add_handler s k h = s ++ [(k, [h])] := by
        simp [EventHandlerDict.add_handler, EventHandlerDict.getitem, hns]
      rw [hadd, remove_handler]
      have hg : aget (s ++ [(k, [h])]) k = some [h] := by
        simp [aget_append, hnone, aget]
      have hup : aupdate (s ++ [(k, [h])]) k (fun e => Event.isub e h)
          = s ++ [(k, [])] := by
        rw [aupdate_append]
        simp [hnone, aupdate, isub_singleton_self]
      simp [hg, hup, aget_append, hnone, aget]

/-- C7 witness: on the empty collection, adding then removing one handler for
key 0 leaves an empty container that lookups still find. -/
theorem keyed_collection_container_invariant_witness :
    (aget ([] : Assoc) 0 = none) ∧
    aget (remove_handler (EventHandlerList.add_handler [] 0 ⟨0, 0⟩) 0 ⟨0, 0⟩) 0
        = some [] ∧
    aget (remove_handler (EventHandlerDict.add_handler [] 0 ⟨0, 0⟩) 0 ⟨0, 0⟩) 0
        = some [] :=
  ⟨rfl,
    ((keyed_collection_container_invariant (fun _ => []) [] [] 0 0
      ⟨0, 0⟩).2.2.2.2 rfl).1,
    ((keyed_collection_container_invariant (fun _ => []) [] [] 0 0
      ⟨0, 0⟩).2.2.2.2 rfl).2⟩

theorem volatile_runActs_some (acts : List Act) :
    ∀ st, ∃ st2, VolatileEvent.runActs ⟨false, st⟩ acts = some ⟨false, st2⟩ := by
  induction acts with
  | nil => intro st; exact ⟨st, rfl⟩
  | cons a rest ih =>
    intro st
    cases a with
    | add h =>
      obtain ⟨st2, h2⟩ := ih (Event.iadd st h)
      exact ⟨st2, h2⟩
    | remove h =>
      obtain ⟨st2, h2⟩ := ih (Event.isub st h)
      exact ⟨st2, h2⟩

theorem volatile_callLoop_some (env : Env) (args : Nat) (snap : List Handler) :
    ∀ st, ∃ st2, VolatileEvent.callLoop env args snap ⟨false, st⟩
      = some (⟨false, st2⟩, snap.map (fun h => (h.ref, args))) := by
  induction snap with
  | nil => intro st; exact ⟨st, rfl⟩
  | cons h rest ih =>
    intro st
    obtain ⟨stm, hm⟩ := volatile_runActs_some (env h.ref) st
    obtain ⟨st2, h2⟩ := ih stm
    exact ⟨st2, by simp [VolatileEvent.callLoop, hm, h2]⟩

/-- C4: on a `VolatileEvent`, `__iadd__` and `__isub__` acquire the lock,
perform only the one mutation, and release it (starting unlocked they succeed
and finish unlocked); `__call__` copies the handler list under the lock and
releases it before any handler runs, so even when the handlers themselves
subscribe/unsubscribe on the same event during their own invocation
(arbitrary `env`), the invocation completes — no deadlock — with the lock
free, having called exactly the snapshot. -/
theorem volatile_event_lock_discipline (env : Env) (args : Nat)
    (st : List Handler) (h : Handler) :
    VolatileEvent.iadd ⟨false, st⟩ h = some ⟨false, Event.iadd st h⟩ ∧
    VolatileEvent.isub ⟨false, st⟩ h = some ⟨false, Event.isub st h⟩ ∧
    ∃ st2, VolatileEvent.call env args ⟨false, st⟩
      = some (⟨false, st2⟩, st.map (fun x => (x.ref, args))) := by
  refine ⟨rfl, rfl, ?_⟩
  obtain ⟨st2, h2⟩ := volatile_callLoop_some env args st st
  exact ⟨st2, h2⟩

theorem aget_aput_self {κ β : Type} [BEq κ] [LawfulBEq κ]
    (s : List (κ × β)) (k : κ) (v : β) : aget (aput s k v) k = some v := by
  induction s with
  | nil => simp [aput, aget]
  | cons kv rest ih =>
    obtain ⟨k2, e⟩ := kv
    by_cases hk : k2 = k
    · subst hk
      simp [aput, aget]
    · simp [aput, aget, beq_iff_eq, hk, ih]

/-- C6 counterexample: on an `EventDispatcher` subclass declared with
`del_empty_event=True` (src/cs_events/_events.py, one of the two `fset`
variants the claim's cited lines contain), one subscribe-then-unsubscribe
cycle deletes the dict entry again, so the following read returns the shared
sentinel — not a distinct, real, non-sentinel container as the claim
demands. -/
theorem dispatcher_del_empty_event_sentinel_again :
    EventDispatcher.fget
      (EventDispatcher.unsubscribeDel
        (EventDispatcher.subscribeDel pinit "event" ⟨0, 0⟩) "event" ⟨0, 0⟩)
      "event" = ERef.sentinel := by
  rfl

/-- C6 amended: for `EventDispatcher` event properties in the default
configuration (plain `Event` annotation, `del_empty_event=False`): as long as
a name has no stored entry, every read returns the one shared sentinel; and
after one subscribe-then-unsubscribe cycle a read returns a real,
non-sentinel container whose length is zero. -/
theorem dispatcher_sentinel_lifecycle (s : PState) (name : String)
    (h : Handler) (hnone : aget s.events name = none)
    (hfresh : aget s.heap s.fresh = none) :
    EventDispatcher.fget s name = ERef.sentinel ∧
    ∃ oid,
      EventDispatcher.fget
        (EventDispatcher.unsubscribe
          (EventDispatcher.subscribe s name h) name h) name
        = ERef.real oid ∧
      lenOf
        (EventDispatcher.unsubscribe
          (EventDispatcher.subscribe s name h) name h)
        (ERef.real oid) = 0 := by
  have hfget : EventDispatcher.fget s name = ERef.sentinel := by
    rw [EventDispatcher.fget, hnone]
    rfl
  have h1 : EventDispatcher.subscribe s name h
      = ⟨s.heap ++ [(s.fresh, [h])], aput s.events name (.real s.fresh),
          s.fresh + 1⟩ := by
    rw [EventDispatcher.subscribe, EventDispatcher.fget, hnone]
    rfl
  have h2 : EventDispatcher.fget
      (⟨s.heap ++ [(s.fresh, [h])], aput s.events name (.real s.fresh),
        s.fresh + 1⟩ : PState) name = .real s.fresh := by
    rw [EventDispatcher.fget]
    simp [aget_aput_self]
  have hcycle : EventDispatcher.unsubscribe
      (EventDispatcher.subscribe s name h) name h
      = ⟨s.heap ++ [(s.fresh, [])],
          aput (aput s.events name (.real s.fresh)) name (.real s.fresh),
          s.fresh + 1⟩ := by
    rw [EventDispatcher.unsubscribe, h1, h2]
    simp only [isubRef, EventDispatcher.fset]
    rw [aupdate_append]
    simp [hfresh, aupdate, isub_singleton_self]
  refine ⟨hfget, s.fresh, ?_, ?_⟩
  · rw [hcycle, EventDispatcher.fget]
    simp [aget_aput_self]
  · rw [hcycle, lenOf, aget_append]
    simp [hfresh, aget]

/-- C6 witness: the amended lifecycle on a fresh instance. -/
theorem dispatcher_sentinel_lifecycle_witness :
    (aget pinit.events "event" = none) ∧
    (aget pinit.heap pinit.fresh = none) ∧
    (EventDispatcher.fget pinit "event" = ERef.sentinel ∧
      ∃ oid,
        EventDispatcher.fget
          (EventDispatcher.unsubscribe
            (EventDispatcher.subscribe pinit "event" ⟨0, 0⟩) "event" ⟨0, 0⟩)
          "event" = ERef.real oid ∧
        lenOf
          (EventDispatcher.unsubscribe
            (EventDispatcher.subscribe pinit "event" ⟨0, 0⟩) "event" ⟨0, 0⟩)
          (ERef.real oid) = 0) :=
  ⟨rfl, rfl, dispatcher_sentinel_lifecycle pinit "event" ⟨0, 0⟩ rfl rfl⟩

/-- C8 (bug evidence): `_create_events` (src/src/cs_events/_events.py) keys
the per-instance dict by `name[len(prefix)]` — the single character after the
prefix — so the distinct declared properties `on_changed` and `on_input`
share the storage key; after subscribing a handler to `on_changed` on a fresh
instance, reading `on_input` returns the real container created for
`on_changed`, not the sentinel the never-subscribed property should show. -/
theorem create_events_single_char_key_collision :
    CreateEvents.eventKey "" "on_changed" = CreateEvents.eventKey "" "on_input" ∧
    CreateEvents.subscribe "" pinit "on_changed" ⟨0, 0⟩
        = Except.ok ⟨[(0, [⟨0, 0⟩])], [("o", ERef.real 0)], 1⟩ ∧
    CreateEvents.fget "" ⟨[(0, [⟨0, 0⟩])], [("o", ERef.real 0)], 1⟩ "on_input"
        = ERef.real 0 := by
  refine ⟨rfl, rfl, rfl⟩

/-- C10 counterexample: the `@events(properties=True)` property setter
(`_create_events.create_event.fset`, src/src/cs_events/_events.py) is not
insert-or-replace: with a different container already stored for the storage
key, assignment raises `AttributeError` instead of replacing it. -/
theorem create_events_fset_raises :
    CreateEvents.fset "" ⟨[(0, []), (1, [])], [("e", ERef.real 0)], 2⟩
      "e" (ERef.real 1) = Except.error "AttributeError" := by
  rfl

/-- C10 amended: assigning a container to a declared event property is
insert-or-replace and never raises for the `EventDispatcher` default
configuration — a subsequent read returns the assigned container even when a
different one was stored; the `@events(properties=True)` setter instead is
set-once: it stores when the storage key is absent, leaves the state
unchanged when the identical container is stored, and raises
`AttributeError` when a different container is stored. -/
theorem property_fset_semantics (s : PState) (name pfx : String)
    (r r2 : ERef) :
    EventDispatcher.fget (EventDispatcher.fset s name r) name = r ∧
    (aget s.events (CreateEvents.eventKey pfx name) = none →
      CreateEvents.fset pfx s name r
        = Except.ok
            { s with events := aput s.events (CreateEvents.eventKey pfx name) r }) ∧
    (aget s.events (CreateEvents.eventKey pfx name) = some r →
      CreateEvents.fset pfx s name r = Except.ok s) ∧
    (aget s.events (CreateEvents.eventKey pfx name) = some r2 → r2 ≠ r →
      CreateEvents.fset pfx s name r = Except.error "AttributeError") := by
  refine ⟨?_, ?_, ?_, ?_⟩
  · rw [EventDispatcher.fget, EventDispatcher.fset]
    simp [aget_aput_self]
  · intro hn
    rw [CreateEvents.fset, hn]
  · intro hs
    rw [CreateEvents.fset, hs]
    simp
  · intro hs hne
    rw [CreateEvents.fset, hs]
    simp [hne]

/-- C10 witness: replacing a stored container through the `EventDispatcher`
setter succeeds and reads back, and the set-once setter accepts re-storing
the identical container. -/
theorem property_fset_semantics_witness :
    EventDispatcher.fget
        (EventDispatcher.fset ⟨[(0, []), (1, [])], [("e", ERef.real 0)], 2⟩
          "e" (ERef.real 1)) "e" = ERef.real 1 ∧
    (aget ([("e", ERef.real 0)] : List (String × ERef))
        (CreateEvents.eventKey "" "e") = some (ERef.real 0)) ∧
    CreateEvents.fset "" ⟨[(0, []), (1, [])], [("e", ERef.real 0)], 2⟩
        "e" (ERef.real 0)
      = Except.ok ⟨[(0, []), (1, [])], [("e", ERef.real 0)], 2⟩ :=
  ⟨(property_fset_semantics ⟨[(0, []), (1, [])], [("e", ERef.real 0)], 2⟩
      "e" "" (ERef.real 1) (ERef.real 0)).1,
    rfl,
    (property_fset_semantics ⟨[(0, []), (1, [])], [("e", ERef.real 0)], 2⟩
      "e" "" (ERef.real 0) (ERef.real 0)).2.2.1 rfl⟩

theorem race_inv_step (ins : Race.Ins) (hins : ∀ k n, ins [] k n = [(k, n)])
    (k : Key) (h1 h2 : Handler) (c : Race.RaceCfg) (w : Bool)
    (hc : Race.Inv k h1 h2 c) :
    Race.Inv k h1 h2 (Race.raceStep ins k h1 h2 c w) := by
  rcases hc with h | h | h | h | h | h | h | h | h | h | h <;> subst h <;>
    cases w <;>
      simp [Race.Inv, Race.raceStep, Race.thStep, Race.raceInit, Race.created,
        aget, aupdate, Event.iadd, hins]

theorem race_run_inv (ins : Race.Ins) (hins : ∀ k n, ins [] k n = [(k, n)])
    (k : Key) (h1 h2 : Handler) (sched : List Bool) :
    ∀ c, Race.Inv k h1 h2 c →
      Race.Inv k h1 h2 (Race.raceRun ins k h1 h2 c sched) := by
  induction sched with
  | nil => exact fun c hc => hc
  | cons w ws ih =>
    exact fun c hc => ih _ (race_inv_step ins hins k h1 h2 c w hc)

theorem race_inv_final (k : Key) (h1 h2 : Handler) (c : Race.RaceCfg)
    (hc : Race.Inv k h1 h2 c) (hf : Race.bothFin c) :
    Race.goodFinal k h1 h2 c := by
  obtain ⟨hf1, hf2⟩ := hf
  rcases hc with h | h | h | h | h | h | h | h | h | h | h <;> subst h <;>
    simp_all [Race.goodFinal, Race.raceInit, Race.created, Race.bothFin]

/-- C9: two threads concurrently performing a first-time `add_handler(key, h)`
for the same unused key — on `ConcurrentEventHandlerDict` or
`ConcurrentEventHandlerList` — end, under every interleaving in which both
calls complete, with exactly one container for that key holding both handlers
(in some order): no subscription is lost and no duplicate container is
created, the check-then-create section being protected by the collection
lock. -/
theorem concurrent_first_add_race (k : Key) (h1 h2 : Handler)
    (sched : List Bool) :
    (Race.bothFin (Race.raceRun Race.insDict k h1 h2 Race.raceInit sched) →
      Race.goodFinal k h1 h2
        (Race.raceRun Race.insDict k h1 h2 Race.raceInit sched)) ∧
    (Race.bothFin (Race.raceRun Race.insList k h1 h2 Race.raceInit sched) →
      Race.goodFinal k h1 h2
        (Race.raceRun Race.insList k h1 h2 Race.raceInit sched)) := by
  constructor
  · intro hf
    exact race_inv_final k h1 h2 _
      (race_run_inv Race.insDict (fun _ _ => rfl) k h1 h2 sched Race.raceInit
        (Or.inl rfl)) hf
  · intro hf
    exact race_inv_final k h1 h2 _
      (race_run_inv Race.insList (fun _ _ => rfl) k h1 h2 sched Race.raceInit
        (Or.inl rfl)) hf

/-- C9 witness: under the schedule where thread 1 creates the container and
thread 2 then appends, both calls complete and the key maps to the one
container holding both handlers. -/
theorem concurrent_first_add_race_witness :
    Race.bothFin (Race.raceRun Race.insDict 0 ⟨1, 1⟩ ⟨2, 2⟩ Race.raceInit
      [true, true, false, false, false]) ∧
    Race.goodFinal 0 ⟨1, 1⟩ ⟨2, 2⟩
      (Race.raceRun Race.insDict 0 ⟨1, 1⟩ ⟨2, 2⟩ Race.raceInit
        [true, true, false, false, false]) :=
  ⟨⟨rfl, rfl⟩,
    (concurrent_first_add_race 0 ⟨1, 1⟩ ⟨2, 2⟩
      [true, true, false, false, false]).1 ⟨rfl, rfl⟩⟩

theorem trace_settles (env : Nat → Bool) (settleSeq : List Handler) :
    (AsyncEvent.trace env settleSeq).filterMap settleRef
      = settleSeq.map (fun h => h.ref) := by
  have base : ∀ l : List Handler,
      (l.map (fun h => TraceEv.settled h.ref (env h.ref))).filterMap settleRef
        = l.map (fun h => h.ref) := by
    intro l
    induction l with
    | nil => rfl
    | cons h t ih => simp [settleRef, ih]
  rw [AsyncEvent.trace]
  cases hf : settleSeq.filter (fun h => env h.ref) with
  | nil => exact base settleSeq
  | cons f fs => simp [List.filterMap_append, base settleSeq, settleRef]

/-- C5 (the `AsyncEvent` invocation, modelled from the spec): every handler
registered at invocation time is launched as a task in subscription order and
settles exactly once regardless of the (arbitrary) completion order and of
failures — siblings are not cancelled; when no task fails the trace is just
the settlements; when tasks fail, the invocation surfaces the first recorded
failure strictly after every task has settled (the raise is the final trace
event). -/
theorem async_fanout (env : Nat → Bool) (handlers settleSeq : List Handler)
    (hperm : settleSeq.Perm handlers) :
    ((AsyncEvent.trace env settleSeq).filterMap settleRef).Perm
      (AsyncEvent.launches handlers) ∧
    (settleSeq.filter (fun h => env h.ref) = [] →
      AsyncEvent.trace env settleSeq
        = settleSeq.map (fun h => TraceEv.settled h.ref (env h.ref))) ∧
    (∀ f fs, settleSeq.filter (fun h => env h.ref) = f :: fs →
      AsyncEvent.trace env settleSeq
        = settleSeq.map (fun h => TraceEv.settled h.ref (env h.ref))
          ++ [TraceEv.raised f.ref]) := by
  refine ⟨?_, ?_, ?_⟩
  · rw [trace_settles]
    exact hperm.map _
  · intro hf
    rw [AsyncEvent.trace, hf]
  · intro f fs hf
    rw [AsyncEvent.trace, hf]

/-- C5 witness: three handlers; the second one's task fails; the tasks settle
in reverse launch order. The third task's settlement is recorded and the
failure of the second is surfaced last. -/
theorem async_fanout_witness :
    ([⟨3, 3⟩, ⟨2, 2⟩, ⟨1, 1⟩] : List Handler).Perm
        [⟨1, 1⟩, ⟨2, 2⟩, ⟨3, 3⟩] ∧
    (((AsyncEvent.trace (fun r => r == 2) [⟨3, 3⟩, ⟨2, 2⟩, ⟨1, 1⟩]).filterMap
        settleRef).Perm
      (AsyncEvent.launches [⟨1, 1⟩, ⟨2, 2⟩, ⟨3, 3⟩]) ∧
    (([⟨3, 3⟩, ⟨2, 2⟩, ⟨1, 1⟩] : List Handler).filter (fun h => h.ref == 2)
        = [] →
      AsyncEvent.trace (fun r => r == 2) [⟨3, 3⟩, ⟨2, 2⟩, ⟨1, 1⟩]
        = ([⟨3, 3⟩, ⟨2, 2⟩, ⟨1, 1⟩] : List Handler).map
            (fun h => TraceEv.settled h.ref (h.ref == 2))) ∧
    (∀ f fs, ([⟨3, 3⟩, ⟨2, 2⟩, ⟨1, 1⟩] : List Handler).filter
        (fun h => h.ref == 2) = f :: fs →
      AsyncEvent.trace (fun r => r == 2) [⟨3, 3⟩, ⟨2, 2⟩, ⟨1, 1⟩]
        = ([⟨3, 3⟩, ⟨2, 2⟩, ⟨1, 1⟩] : List Handler).map
            (fun h => TraceEv.settled h.ref (h.ref == 2))
          ++ [TraceEv.raised f.ref])) :=
  ⟨by decide, async_fanout (fun r => r == 2) [⟨1, 1⟩, ⟨2, 2⟩, ⟨3, 3⟩]
    [⟨3, 3⟩, ⟨2, 2⟩, ⟨1, 1⟩] (by decide)⟩

end CsEvents
